import Mathlib

namespace Parallax

/-!
# Parallax offload runtime — shallow embedding and verification

The repository `parallax-compiler/parallax-samples` ships nine example
drivers (`src/basic/*.cpp`).  The runtime core they call — the unified
buffer manager, the closure-to-kernel compiler, the execution-policy
dispatcher and the kernel launcher — is declared in `<parallax/...>`
headers that are not part of the repository tree, so those components
are modelled here from the specification (`spec.md`), faithful to its
words.  The drivers themselves (exit-code behaviour, verification
loops) are embedded directly from the C++ sources.

Numbers are modelled as `Rat`: the spec's correctness contracts are
stated as exact equality for apply/transform and tolerance-bounded
equality for reduce, and every concrete scenario value (5.0, 2.0,
10.0, ...) is exactly representable.
-/

/-- Modelled from the spec (§7 error taxonomy): `OutOfMemory`,
`InvalidHandle`, `UnsupportedOperation`, `CompilationError`,
`DeviceDispatchFailure`. -/
inductive PxError where
  | OutOfMemory
  | InvalidHandle
  | UnsupportedOperation
  | CompilationError
  | DeviceDispatchFailure
deriving DecidableEq, Repr

/-- Decidable equality of fallible results, for evaluating concrete
scenarios. -/
instance exceptDecEq {e a : Type} [DecidableEq e] [DecidableEq a] :
    DecidableEq (Except e a) := fun x y =>
  match x, y with
  | .ok u, .ok v => decidable_of_iff (u = v) (by simp)
  | .error u, .error v => decidable_of_iff (u = v) (by simp)
  | .ok _, .error _ => isFalse (by simp)
  | .error _, .ok _ => isFalse (by simp)

/-! ## Closure IR

The spec (§9, design notes) prescribes an explicit
tagged-operation-tree value as the callable representation: the
supported primitive set is arithmetic, comparison, fused multiply-add,
literal constants, and one- or two-parameter element access (§4.2
`signature_of`).  Control flow is outside the supported set. -/

/-- Modelled from the spec (§4.2, §9): the operation tree of a
callable.  `param i` is element access for parameter `i`; `capture i`
reads the `i`-th captured scalar (injected at dispatch time, never
baked into the kernel); `branch` is control flow — present in host
callables but unsupported by the kernel compiler. -/
inductive Expr where
  | param : Nat → Expr
  | lit : Rat → Expr
  | capture : Nat → Expr
  | add : Expr → Expr → Expr
  | sub : Expr → Expr → Expr
  | mul : Expr → Expr → Expr
  | div : Expr → Expr → Expr
  | fma : Expr → Expr → Expr → Expr
  | ltOp : Expr → Expr → Expr
  | branch : Expr → Expr → Expr → Expr
deriving DecidableEq, Repr

/-- Host-side evaluation of an operation tree: the exact semantics of
the supplied callable (the C++ lambda running on the CPU).  Total:
missing parameters or captures read as 0, division follows `Rat`
division. -/
def Expr.eval (params caps : List Rat) : Expr → Rat
  | .param i => params.getD i 0
  | .lit q => q
  | .capture i => caps.getD i 0
  | .add a b => a.eval params caps + b.eval params caps
  | .sub a b => a.eval params caps - b.eval params caps
  | .mul a b => a.eval params caps * b.eval params caps
  | .div a b => a.eval params caps / b.eval params caps
  | .fma a b c => a.eval params caps * b.eval params caps + c.eval params caps
  | .ltOp a b => if a.eval params caps < b.eval params caps then 1 else 0
  | .branch c t e => if c.eval params caps ≠ 0 then t.eval params caps else e.eval params caps

/-- Modelled from the spec (§4.2 `signature_of`): the supported
operation subset — everything except control flow (`branch`). -/
def Expr.supported : Expr → Bool
  | .param _ => true
  | .lit _ => true
  | .capture _ => true
  | .add a b => a.supported && b.supported
  | .sub a b => a.supported && b.supported
  | .mul a b => a.supported && b.supported
  | .div a b => a.supported && b.supported
  | .fma a b c => a.supported && b.supported && c.supported
  | .ltOp a b => a.supported && b.supported
  | .branch _ _ _ => false

/-- Modelled from the spec (§3, §6): a callable is an operation tree
over its parameter(s) plus the captured runtime scalars, which are
passed as kernel invocation parameters, not baked into bytecode. -/
structure Callable where
  body : Expr
  captures : List Rat
deriving DecidableEq, Repr

/-- Host evaluation of a one-parameter callable (apply / transform). -/
def Callable.eval1 (c : Callable) (x : Rat) : Rat :=
  c.body.eval [x] c.captures

/-- Host evaluation of a two-parameter callable (reduce combiner). -/
def Callable.eval2 (c : Callable) (a b : Rat) : Rat :=
  c.body.eval [a, b] c.captures

/-! ## Portable binary kernel format and its device semantics

The spec calls the compilation artifact a "portable binary kernel"
(§3 CompiledKernel, glossary) without fixing the instruction format;
we model it as a small stack machine so that lowering is a genuine
translation whose equivalence with host evaluation is proved, not
assumed. -/

/-- Modelled from the spec (§3 CompiledKernel): one instruction of the
portable binary kernel.  `arg i` pushes the `i`-th scalar kernel
argument (a captured value injected at dispatch). -/
inductive Instr where
  | push : Rat → Instr
  | loadParam : Nat → Instr
  | arg : Nat → Instr
  | iadd : Instr
  | isub : Instr
  | imul : Instr
  | idiv : Instr
  | ifma : Instr
  | ilt : Instr
deriving DecidableEq, Repr

/-- One step of the device stack machine on the operand stack.  Total:
an underflowing operand reads as 0 (device behaviour on malformed
bytecode is junk, never a host-visible error). -/
def stepInstr (params args : List Rat) (stk : List Rat) : Instr → List Rat
  | .push q => q :: stk
  | .loadParam i => params.getD i 0 :: stk
  | .arg i => args.getD i 0 :: stk
  | .iadd =>
    match stk with
    | b :: a :: rest => (a + b) :: rest
    | _ => [0]
  | .isub =>
    match stk with
    | b :: a :: rest => (a - b) :: rest
    | _ => [0]
  | .imul =>
    match stk with
    | b :: a :: rest => (a * b) :: rest
    | _ => [0]
  | .idiv =>
    match stk with
    | b :: a :: rest => (a / b) :: rest
    | _ => [0]
  | .ifma =>
    match stk with
    | c :: b :: a :: rest => (a * b + c) :: rest
    | _ => [0]
  | .ilt =>
    match stk with
    | b :: a :: rest => (if a < b then (1 : Rat) else 0) :: rest
    | _ => [0]

/-- Run a kernel's instruction list on the device, threading the stack. -/
def runCode (params args : List Rat) : List Instr → List Rat → List Rat
  | [], stk => stk
  | i :: is, stk => runCode params args is (stepInstr params args stk i)

/-- Result of a device work-item: top of stack after running the code,
0 if the code left an empty stack. -/
def runKernelCode (code : List Instr) (params args : List Rat) : Rat :=
  (runCode params args code []).headD 0

/-- Modelled from the spec (§4.2 `compile`): lowering of the supported
operation sequence into the portable binary kernel format.  Fails
(`none`, surfaced as `CompilationError`) on control flow. -/
def lowerExpr : Expr → Option (List Instr)
  | .param i => some [.loadParam i]
  | .lit q => some [.push q]
  | .capture i => some [.arg i]
  | .add a b =>
    match lowerExpr a, lowerExpr b with
    | some ca, some cb => some (ca ++ cb ++ [.iadd])
    | _, _ => none
  | .sub a b =>
    match lowerExpr a, lowerExpr b with
    | some ca, some cb => some (ca ++ cb ++ [.isub])
    | _, _ => none
  | .mul a b =>
    match lowerExpr a, lowerExpr b with
    | some ca, some cb => some (ca ++ cb ++ [.imul])
    | _, _ => none
  | .div a b =>
    match lowerExpr a, lowerExpr b with
    | some ca, some cb => some (ca ++ cb ++ [.idiv])
    | _, _ => none
  | .fma a b c =>
    match lowerExpr a, lowerExpr b, lowerExpr c with
    | some ca, some cb, some cc => some (ca ++ cb ++ cc ++ [.ifma])
    | _, _, _ => none
  | .ltOp a b =>
    match lowerExpr a, lowerExpr b with
    | some ca, some cb => some (ca ++ cb ++ [.ilt])
    | _, _ => none
  | .branch _ _ _ => none

/-! ## Kernel cache and `compile` -/

/-- Modelled from the spec (§3 KernelSignature): a structural
fingerprint of a callable's compiled operation body, independent of
capture values.  The operation tree itself (which refers to captures
only by slot index, never by value) is the fingerprint. -/
structure KernelSignature where
  body : Expr
deriving DecidableEq, Repr

/-- Modelled from the spec (§3 CompiledKernel): operation kind tag. -/
inductive OpKind where
  | APPLY
  | TRANSFORM
  | REDUCE
deriving DecidableEq, Repr

/-- Parameter arity fixed by the operation kind (§3 CompiledKernel:
1 for apply/transform-in-place, 2 for transform, N for reduction;
our reduction combiner is binary). -/
def OpKind.arity : OpKind → Nat
  | .APPLY => 1
  | .TRANSFORM => 2
  | .REDUCE => 2

/-- Size of an operation tree, used only for the diagnostic kernel
name. -/
def Expr.nodeCount : Expr → Nat
  | .param _ => 1
  | .lit _ => 1
  | .capture _ => 1
  | .add a b => a.nodeCount + b.nodeCount + 1
  | .sub a b => a.nodeCount + b.nodeCount + 1
  | .mul a b => a.nodeCount + b.nodeCount + 1
  | .div a b => a.nodeCount + b.nodeCount + 1
  | .fma a b c => a.nodeCount + b.nodeCount + c.nodeCount + 1
  | .ltOp a b => a.nodeCount + b.nodeCount + 1
  | .branch c t e => c.nodeCount + t.nodeCount + e.nodeCount + 1

/-- Modelled from the spec (§4.2 `kernel_name`): stable human-readable
identifier derived from the signature, diagnostics only. -/
def kernel_name_of_sig (sig : KernelSignature) : String :=
  "parallax_kernel_" ++ toString sig.body.nodeCount

/-- Modelled from the spec (§3 CompiledKernel): immutable portable
binary module plus metadata. -/
structure CompiledKernel where
  entryName : String
  arity : Nat
  opKind : OpKind
  code : List Instr
deriving DecidableEq, Repr

/-- Modelled from the spec (§4.1): errors raised by the core. -/
def signature_of (c : Callable) : Except PxError KernelSignature :=
  if c.body.supported then .ok ⟨c.body⟩ else .error .UnsupportedOperation

/-- Modelled from the spec (§3 KernelCache, §9): the process-wide
compiler state — the signature-to-kernel cache plus the compilation
counter the spec's cache-idempotence property observes (§8). -/
structure CompilerState where
  cache : List (KernelSignature × CompiledKernel)
  lowerCount : Nat
deriving DecidableEq, Repr

/-- Fresh compiler state at process start: empty cache, counter 0. -/
def CompilerState.initial : CompilerState := ⟨[], 0⟩

/-- Modelled from the spec (§4.2 `compile`): computes the signature;
a cache hit returns the cached kernel without re-invoking lowering;
a miss lowers the operation sequence, stores and returns the fresh
kernel.  `UnsupportedOperation` on signature failure,
`CompilationError` when lowering cannot proceed. -/
def compile (st : CompilerState) (c : Callable) (k : OpKind) :
    Except PxError (CompiledKernel × CompilerState) :=
  match signature_of c with
  | .error e => .error e
  | .ok sig =>
    match st.cache.lookup sig with
    | some kern => .ok (kern, st)
    | none =>
      match lowerExpr sig.body with
      | none => .error .CompilationError
      | some code =>
        let kern : CompiledKernel :=
          ⟨kernel_name_of_sig sig, k.arity, k, code⟩
        .ok (kern, ⟨(sig, kern) :: st.cache, st.lowerCount + 1⟩)

/-- A compiler state is well formed when every cached kernel is the
lowering of its signature's body. -/
def CompilerState.WF (st : CompilerState) : Prop :=
  ∀ sig kern, (sig, kern) ∈ st.cache → lowerExpr sig.body = some kern.code

instance (st : CompilerState) : Decidable st.WF :=
  decidable_of_iff (∀ p ∈ st.cache, lowerExpr p.1.body = some p.2.code) (by
    constructor
    · intro h sig kern hmem
      exact h (sig, kern) hmem
    · intro h p hp
      exact h p.1 p.2 hp)

/-! ## Execution-policy dispatcher (value level)

The spec's public contract (§4.3): `for_each`, `transform`, `reduce`
taking a policy in {SEQUENTIAL, PARALLEL_HOST,
PARALLEL_DEVICE_PREFERRED}.  Only the last attempts offload; on
compilation failure it falls back to host parallel execution of
equivalent semantics; below a small-size threshold it prefers host
execution even when a kernel is available. -/

/-- Modelled from the spec (§4.3): the execution policies. -/
inductive Policy where
  | SEQUENTIAL
  | PARALLEL_HOST
  | PARALLEL_DEVICE_PREFERRED
deriving DecidableEq, Repr

/-- Modelled from the spec (§4.3 threshold policy): the documented
small-size crossover below which PARALLEL_DEVICE_PREFERRED prefers
host execution.  The exact value is implementation-tunable; the model
fixes it at 1024 elements. -/
def DISPATCH_THRESHOLD : Nat := 1024

/-- Modelled from the spec (§4.2 REDUCE, §9 open question): the fixed
work-group size of the grouped reduction and of the host thread-pool
chunking.  The exact value is an implementation choice; the model
fixes it at 256. -/
def GROUP_SIZE : Nat := 256

/-- Partition a list into consecutive chunks of `GROUP_SIZE`
elements (the last chunk may be shorter). -/
def chunkList {α : Type} : List α → List (List α)
  | [] => []
  | x :: xs => ((x :: xs).take GROUP_SIZE) :: chunkList ((x :: xs).drop GROUP_SIZE)
termination_by l => l.length
decreasing_by
  simp only [List.length_drop, List.length_cons]
  exact Nat.sub_lt (Nat.succ_pos _) (by norm_num [GROUP_SIZE])

/-- Modelled from the spec (§5): host-side parallel execution — a
data-parallel thread pool over disjoint element chunks; each work item
applies the callable to its own elements. -/
def host_parallel_for_each (c : Callable) (xs : List Rat) : List Rat :=
  ((chunkList xs).map (fun g => g.map c.eval1)).flatten

/-- Device execution of a compiled element-wise kernel: one work-item
per element, captured scalars passed as kernel arguments. -/
def device_map (kern : CompiledKernel) (caps : List Rat) (xs : List Rat) : List Rat :=
  xs.map (fun x => runKernelCode kern.code [x] caps)

/-- Modelled from the spec (§4.2 REDUCE, §5): grouped/tree reduction —
work-items combine partials within a group, then the group partials
are combined.  Used both by the device path and by the host parallel
fallback (partials combined after a barrier). -/
def grouped_reduce (f : Rat → Rat → Rat) (ident : Rat) (xs : List Rat) : Rat :=
  ((chunkList xs).map (fun g => g.foldl f ident)).foldl f ident

/-- Modelled from the spec (§4.3): `for_each(policy, range, callable)`.
Under PARALLEL_DEVICE_PREFERRED: below the threshold, host; on
compilation failure, host fallback (never an error to the caller); on
success, dispatch the compiled kernel one work-item per element. -/
def for_each (pol : Policy) (st : CompilerState) (c : Callable) (xs : List Rat) :
    List Rat × CompilerState :=
  match pol with
  | .SEQUENTIAL => (xs.map c.eval1, st)
  | .PARALLEL_HOST => (host_parallel_for_each c xs, st)
  | .PARALLEL_DEVICE_PREFERRED =>
    if xs.length < DISPATCH_THRESHOLD then (host_parallel_for_each c xs, st)
    else
      match compile st c .APPLY with
      | .error _ => (host_parallel_for_each c xs, st)
      | .ok (kern, st') => (device_map kern c.captures xs, st')

/-- Modelled from the spec (§4.3): `transform(policy, inRange,
outBegin, callable)` — returns the output buffer contents.  Output
does not alias input. -/
def transform (pol : Policy) (st : CompilerState) (c : Callable) (xs : List Rat) :
    List Rat × CompilerState :=
  match pol with
  | .SEQUENTIAL => (xs.map c.eval1, st)
  | .PARALLEL_HOST => (host_parallel_for_each c xs, st)
  | .PARALLEL_DEVICE_PREFERRED =>
    if xs.length < DISPATCH_THRESHOLD then (host_parallel_for_each c xs, st)
    else
      match compile st c .TRANSFORM with
      | .error _ => (host_parallel_for_each c xs, st)
      | .ok (kern, st') => (device_map kern c.captures xs, st')

/-- Modelled from the spec (§4.3): `reduce(policy, range, identity,
combiner) -> value`.  SEQUENTIAL is the strict left-to-right fold;
both parallel paths use the grouped reduction, the device path running
the compiled combiner kernel per combine. -/
def reduce (pol : Policy) (st : CompilerState) (comb : Callable) (ident : Rat)
    (xs : List Rat) : Rat × CompilerState :=
  match pol with
  | .SEQUENTIAL => (xs.foldl comb.eval2 ident, st)
  | .PARALLEL_HOST => (grouped_reduce comb.eval2 ident xs, st)
  | .PARALLEL_DEVICE_PREFERRED =>
    if xs.length < DISPATCH_THRESHOLD then (grouped_reduce comb.eval2 ident xs, st)
    else
      match compile st comb .REDUCE with
      | .error _ => (grouped_reduce comb.eval2 ident xs, st)
      | .ok (kern, st') =>
        (grouped_reduce (fun a b => runKernelCode kern.code [a, b] comb.captures) ident xs, st')

/-- Modelled from the spec (§8): the fixed relative tolerance for
reduce equivalence, e.g. 1e-3. -/
def REDUCE_REL_TOL : Rat := 1 / 1000

/-! ## Unified Buffer / Allocation Manager

Modelled from the spec (§3 UnifiedAllocation, §4.1): per-block
residency state, block-granular transitions, `allocate` / `free` /
`ensure_resident` / `mark_dirty`.  The coherence-block size is an
implementation choice documented at the manager boundary (§4.1); the
model tracks state at element granularity, the finest choice. -/

/-- Modelled from the spec (§4.1 `ensure_resident` target). -/
inductive Target where
  | HOST
  | DEVICE
deriving DecidableEq, Repr

/-- Modelled from the spec (§3): per-block residency flags.  Which
side holds a valid (authoritative or clean) copy of the block. -/
structure BlockState where
  hostValid : Bool
  deviceValid : Bool
deriving DecidableEq, Repr

/-- Spec §3: the host exclusively owns the block. -/
def BlockState.hostOwns (s : BlockState) : Prop :=
  s.hostValid = true ∧ s.deviceValid = false

/-- Spec §3: the device exclusively owns the block. -/
def BlockState.deviceOwns (s : BlockState) : Prop :=
  s.hostValid = false ∧ s.deviceValid = true

/-- Spec §3: both sides observe identical bytes, no write pending. -/
def BlockState.sharedClean (s : BlockState) : Prop :=
  s.hostValid = true ∧ s.deviceValid = true

instance (s : BlockState) : Decidable s.hostOwns := by unfold BlockState.hostOwns; infer_instance

instance (s : BlockState) : Decidable s.deviceOwns := by unfold BlockState.deviceOwns; infer_instance

instance (s : BlockState) : Decidable s.sharedClean := by unfold BlockState.sharedClean; infer_instance

/-- One coherence block of an allocation: the bytes each side
observes, plus the residency state. -/
structure Cell where
  host : Rat
  device : Rat
  bst : BlockState
deriving DecidableEq, Repr

/-- Well-formedness of a block: some side holds a valid copy, and a
shared-clean block shows identical bytes on both sides (§3). -/
def Cell.WF (cl : Cell) : Prop :=
  (cl.bst.hostValid = true ∨ cl.bst.deviceValid = true) ∧
    (cl.bst.hostValid = true → cl.bst.deviceValid = true → cl.host = cl.device)

instance (cl : Cell) : Decidable cl.WF := by unfold Cell.WF; infer_instance

/-- The authoritative contents of a block: the device copy when the
device side is valid, the host copy otherwise. -/
def Cell.value (cl : Cell) : Rat :=
  if cl.bst.deviceValid then cl.device else cl.host

/-- Modelled from the spec (§4.1 `ensure_resident`): for a block whose
state conflicts with `target`, copy bytes so the block is afterwards
valid for `target` (shared-clean); no-op for already-satisfying
blocks. -/
def syncCell : Target → Cell → Cell
  | .HOST, cl => if cl.bst.hostValid then cl else ⟨cl.device, cl.device, ⟨true, true⟩⟩
  | .DEVICE, cl => if cl.bst.deviceValid then cl else ⟨cl.host, cl.host, ⟨true, true⟩⟩

/-- Modelled from the spec (§4.1 `mark_dirty`): record that `owner`
has the authoritative copy, invalidating the other side lazily (no
copy). -/
def markDirtyCell : Target → Cell → Cell
  | .HOST, cl => ⟨cl.host, cl.device, ⟨true, false⟩⟩
  | .DEVICE, cl => ⟨cl.host, cl.device, ⟨false, true⟩⟩

/-- Apply `f` to the cells whose index falls in `[lo, lo+len)`. -/
def mapIdxFrom {α : Type} (f : Nat → α → α) : Nat → List α → List α
  | _, [] => []
  | i, x :: xs => f i x :: mapIdxFrom f (i + 1) xs

/-- Block-granular range update. -/
def mapRange (lo len : Nat) (f : Cell → Cell) (cells : List Cell) : List Cell :=
  mapIdxFrom (fun i cl => if lo ≤ i ∧ i < lo + len then f cl else cl) 0 cells

/-- Modelled from the spec (§2, §3): the allocation manager state —
live allocations keyed by handle, plus the next fresh handle. -/
structure MemoryManager where
  allocs : List (Nat × List Cell)
  nextHandle : Nat
deriving DecidableEq, Repr

/-- Manager state at process start. -/
def MemoryManager.initial : MemoryManager := ⟨[], 1⟩

/-- Replace the cells of allocation `h`. -/
def MemoryManager.update (mm : MemoryManager) (h : Nat) (cells : List Cell) :
    MemoryManager :=
  ⟨mm.allocs.map (fun p => if p.1 == h then (p.1, cells) else p), mm.nextHandle⟩

/-- Modelled from the spec (§4.1 `allocate`): a fresh handle valid for
both sides; all blocks initialized host-owned and zero-valued (§3
lifecycle). -/
def allocate (mm : MemoryManager) (n : Nat) : Nat × MemoryManager :=
  (mm.nextHandle,
    ⟨(mm.nextHandle, List.replicate n ⟨0, 0, ⟨true, false⟩⟩) :: mm.allocs, mm.nextHandle + 1⟩)

/-- Modelled from the spec (§4.1 `free`): fails with `InvalidHandle`
if the handle is unknown or already freed; otherwise releases host
and device storage. -/
def free (mm : MemoryManager) (h : Nat) : Except PxError MemoryManager :=
  match mm.allocs.lookup h with
  | none => .error .InvalidHandle
  | some _ => .ok ⟨mm.allocs.filter (fun p => !(p.1 == h)), mm.nextHandle⟩

/-- Modelled from the spec (§4.1 `ensure_resident`): the single
synchronization primitive — make the blocks overlapping the range
correct for `target`.  `InvalidHandle` on an unknown or freed
handle. -/
def ensure_resident (mm : MemoryManager) (h : Nat) (lo len : Nat) (tgt : Target) :
    Except PxError MemoryManager :=
  match mm.allocs.lookup h with
  | none => .error .InvalidHandle
  | some cells => .ok (mm.update h (mapRange lo len (syncCell tgt) cells))

/-- Modelled from the spec (§4.1 `mark_dirty`): record the
authoritative side for the range's blocks. -/
def mark_dirty (mm : MemoryManager) (h : Nat) (lo len : Nat) (owner : Target) :
    Except PxError MemoryManager :=
  match mm.allocs.lookup h with
  | none => .error .InvalidHandle
  | some cells => .ok (mm.update h (mapRange lo len (markDirtyCell owner) cells))

/-- Modelled from the spec (§4.3, §4.4): `for_each` over an
allocation handle under PARALLEL_DEVICE_PREFERRED.  On compilation
failure: host fallback — read barrier (`ensure_resident(HOST)`),
apply the callable host-side, mark host dirty.  On success:
`ensure_resident(DEVICE)`, one work-item per element on the device
side, blocking until completion, then `mark_dirty(DEVICE)`. -/
def for_each_h (cst : CompilerState) (mm : MemoryManager) (h : Nat) (c : Callable) :
    Except PxError (MemoryManager × CompilerState) :=
  match mm.allocs.lookup h with
  | none => .error .InvalidHandle
  | some cells =>
    match compile cst c .APPLY with
    | .error _ =>
      let cells1 := (cells.map (syncCell .HOST)).map
        (fun cl => markDirtyCell .HOST ⟨c.eval1 cl.host, cl.device, cl.bst⟩)
      .ok (mm.update h cells1, cst)
    | .ok (kern, cst') =>
      let cells1 := (cells.map (syncCell .DEVICE)).map
        (fun cl => markDirtyCell .DEVICE ⟨cl.host, runKernelCode kern.code [cl.device] c.captures, cl.bst⟩)
      .ok (mm.update h cells1, cst')

/-- Modelled from the spec (§4.3): a host-side read of an allocation
goes through the read barrier — `ensure_resident(HOST)` is triggered
transparently — and then observes the host bytes. -/
def host_read_all (mm : MemoryManager) (h : Nat) : Except PxError (List Rat) :=
  match mm.allocs.lookup h with
  | none => .error .InvalidHandle
  | some cells => .ok ((cells.map (syncCell .HOST)).map Cell.host)

/-- Well-formedness of the whole manager: every block of every live
allocation is well formed. -/
def MemoryManager.WF (mm : MemoryManager) : Prop :=
  ∀ p ∈ mm.allocs, ∀ cl ∈ p.2, cl.WF

instance (mm : MemoryManager) : Decidable mm.WF := by
  unfold MemoryManager.WF; infer_instance

/-! ## Cache idempotence support (spec §4.2, §8) -/

/-- N repeated `compile` calls, threading the compiler state. -/
def compileN : Nat → CompilerState → Callable → OpKind → CompilerState
  | 0, st, _, _ => st
  | n + 1, st, c, k =>
    match compile st c k with
    | .error _ => st
    | .ok (_, st') => compileN n st' c k

/-! ## Driver embeddings (`src/basic`)

These are embedded from the C++ sources in the repository, not from
the spec. -/

/-- Verification loop of `src/basic/vector_multiply.cpp` `main`
(lines 71-80): compares `data` against the CPU baseline with absolute
tolerance 1e-5, but only at indices `i < N && i < 10`. -/
def vm_verify (data cpu : List Rat) : Bool :=
  (List.range (min data.length 10)).all
    (fun i => |data.getD i 0 - cpu.getD i 0| ≤ 1 / 100000)

/-- Exit path of `src/basic/vector_multiply.cpp` `main` (lines 68-93):
the verification outcome feeds only the printed message; the function
returns 0 unconditionally. -/
def vector_multiply_exit (data cpu : List Rat) : Nat :=
  let _correct := vm_verify data cpu
  0

/-- Verification loop of `src/basic/comprehensive_bench.cpp`
`run_benchmark` (lines 119-130): compares all `N` elements with
absolute tolerance 1e-5 (stopping after 10 errors, which does not
change the resulting flag). -/
def cb_verify (data cpu : List Rat) : Bool :=
  (List.range data.length).all
    (fun i => |data.getD i 0 - cpu.getD i 0| ≤ 1 / 100000)

/-- Exit path of `src/basic/comprehensive_bench.cpp` `main` (lines
119-145): each benchmark's `correct` flag feeds only the printed
PASS/FAIL column; the function returns 0 unconditionally. -/
def comprehensive_bench_exit (runs : List (List Rat × List Rat)) : Nat :=
  let _statuses := runs.map (fun r => cb_verify r.1 r.2)
  0

/-- Operation shape of the C5 witness: multiply the element by a
captured scalar. -/
def capMulBody : Expr := .mul (.param 0) (.capture 0)

/-- The kernel the witness shape compiles to. -/
def capMulKern : CompiledKernel :=
  ⟨"parallax_kernel_3", 1, .APPLY, [.loadParam 0, .arg 0, .imul]⟩

/-- Compiler state after compiling the witness shape once. -/
def capMulState : CompilerState := ⟨[(⟨capMulBody⟩, capMulKern)], 1⟩

/-- The demo callable of the C9 witness: the identity operation. -/
def demoId : Callable := ⟨.param 0, []⟩

/-- Manager with one fresh 3-element allocation at handle 1. -/
def demoMM : MemoryManager := (allocate MemoryManager.initial 3).2

/-- Manager state after dispatching the demo callable on handle 1:
every block written on the device and device-owned. -/
def demoMMAfter : MemoryManager :=
  ⟨[(1, List.replicate 3 ⟨0, 0, ⟨false, true⟩⟩)], 2⟩

/-- Compiler state after compiling the demo callable. -/
def demoCstAfter : CompilerState :=
  ⟨[(⟨demoId.body⟩, ⟨"parallax_kernel_1", 1, .APPLY, [.loadParam 0]⟩)], 1⟩

/-! ## Theorems -/

/-- Running concatenated code threads the stack through both halves. -/
theorem runCode_append (params args : List Rat) (c1 c2 : List Instr) (stk : List Rat) :
    runCode params args (c1 ++ c2) stk = runCode params args c2 (runCode params args c1 stk) := by
  induction c1 generalizing stk with
  | nil => rfl
  | cons i is ih => simp [runCode, ih]

/-- Compiler correctness, strengthened over an arbitrary operand
stack: lowered code pushes exactly the host evaluation of the
expression, provided the captures are passed as the kernel arguments. -/
theorem runCode_lowerExpr (e : Expr) (code : List Instr) (params caps : List Rat)
    (h : lowerExpr e = some code) (stk : List Rat) :
    runCode params caps code stk = e.eval params caps :: stk := by
  induction e generalizing code stk with
  | param i =>
    simp only [lowerExpr, Option.some.injEq] at h
    subst h
    simp [runCode, stepInstr, Expr.eval]
  | lit q =>
    simp only [lowerExpr, Option.some.injEq] at h
    subst h
    simp [runCode, stepInstr, Expr.eval]
  | capture i =>
    simp only [lowerExpr, Option.some.injEq] at h
    subst h
    simp [runCode, stepInstr, Expr.eval]
  | add a b iha ihb =>
    cases ha : lowerExpr a with
    | none => rw [lowerExpr, ha] at h; cases lowerExpr b <;> simp at h
    | some ca =>
      cases hb : lowerExpr b with
      | none => rw [lowerExpr, ha, hb] at h; simp at h
      | some cb =>
        rw [lowerExpr, ha, hb] at h
        simp only [Option.some.injEq] at h
        subst h
        rw [runCode_append, runCode_append, iha ca ha, ihb cb hb]
        simp [runCode, stepInstr, Expr.eval]
  | sub a b iha ihb =>
    cases ha : lowerExpr a with
    | none => rw [lowerExpr, ha] at h; cases lowerExpr b <;> simp at h
    | some ca =>
      cases hb : lowerExpr b with
      | none => rw [lowerExpr, ha, hb] at h; simp at h
      | some cb =>
        rw [lowerExpr, ha, hb] at h
        simp only [Option.some.injEq] at h
        subst h
        rw [runCode_append, runCode_append, iha ca ha, ihb cb hb]
        simp [runCode, stepInstr, Expr.eval]
  | mul a b iha ihb =>
    cases ha : lowerExpr a with
    | none => rw [lowerExpr, ha] at h; cases lowerExpr b <;> simp at h
    | some ca =>
      cases hb : lowerExpr b with
      | none => rw [lowerExpr, ha, hb] at h; simp at h
      | some cb =>
        rw [lowerExpr, ha, hb] at h
        simp only [Option.some.injEq] at h
        subst h
        rw [runCode_append, runCode_append, iha ca ha, ihb cb hb]
        simp [runCode, stepInstr, Expr.eval]
  | div a b iha ihb =>
    cases ha : lowerExpr a with
    | none => rw [lowerExpr, ha] at h; cases lowerExpr b <;> simp at h
    | some ca =>
      cases hb : lowerExpr b with
      | none => rw [lowerExpr, ha, hb] at h; simp at h
      | some cb =>
        rw [lowerExpr, ha, hb] at h
        simp only [Option.some.injEq] at h
        subst h
        rw [runCode_append, runCode_append, iha ca ha, ihb cb hb]
        simp [runCode, stepInstr, Expr.eval]
  | fma a b c iha ihb ihc =>
    cases ha : lowerExpr a with
    | none => rw [lowerExpr, ha] at h; cases lowerExpr b <;> cases lowerExpr c <;> simp at h
    | some ca =>
      cases hb : lowerExpr b with
      | none => rw [lowerExpr, ha, hb] at h; cases lowerExpr c <;> simp at h
      | some cb =>
        cases hc : lowerExpr c with
        | none => rw [lowerExpr, ha, hb, hc] at h; simp at h
        | some cc =>
          rw [lowerExpr, ha, hb, hc] at h
          simp only [Option.some.injEq] at h
          subst h
          rw [show ca ++ cb ++ cc ++ [Instr.ifma] = ca ++ (cb ++ (cc ++ [Instr.ifma])) by simp]
          rw [runCode_append, iha ca ha, runCode_append, ihb cb hb, runCode_append, ihc cc hc]
          simp [runCode, stepInstr, Expr.eval]
  | ltOp a b iha ihb =>
    cases ha : lowerExpr a with
    | none => rw [lowerExpr, ha] at h; cases lowerExpr b <;> simp at h
    | some ca =>
      cases hb : lowerExpr b with
      | none => rw [lowerExpr, ha, hb] at h; simp at h
      | some cb =>
        rw [lowerExpr, ha, hb] at h
        simp only [Option.some.injEq] at h
        subst h
        rw [runCode_append, runCode_append, iha ca ha, ihb cb hb]
        simp [runCode, stepInstr, Expr.eval]
  | branch c t e => simp [lowerExpr] at h

/-- A work-item running the lowered kernel computes exactly the host
evaluation of the callable's operation tree. -/
theorem runKernelCode_eq_eval (e : Expr) (code : List Instr) (params caps : List Rat)
    (h : lowerExpr e = some code) :
    runKernelCode code params caps = e.eval params caps := by
  rw [runKernelCode, runCode_lowerExpr e code params caps h]
  rfl

/-- Lowering succeeds exactly on the supported operation subset. -/
theorem lowerExpr_isSome_iff_supported (e : Expr) :
    (lowerExpr e).isSome = e.supported := by
  induction e with
  | param i => rfl
  | lit q => rfl
  | capture i => rfl
  | add a b iha ihb =>
    simp only [lowerExpr, Expr.supported, ← iha, ← ihb]
    cases lowerExpr a <;> cases lowerExpr b <;> simp
  | sub a b iha ihb =>
    simp only [lowerExpr, Expr.supported, ← iha, ← ihb]
    cases lowerExpr a <;> cases lowerExpr b <;> simp
  | mul a b iha ihb =>
    simp only [lowerExpr, Expr.supported, ← iha, ← ihb]
    cases lowerExpr a <;> cases lowerExpr b <;> simp
  | div a b iha ihb =>
    simp only [lowerExpr, Expr.supported, ← iha, ← ihb]
    cases lowerExpr a <;> cases lowerExpr b <;> simp
  | fma a b c iha ihb ihc =>
    simp only [lowerExpr, Expr.supported, ← iha, ← ihb, ← ihc]
    cases lowerExpr a <;> cases lowerExpr b <;> cases lowerExpr c <;> simp
  | ltOp a b iha ihb =>
    simp only [lowerExpr, Expr.supported, ← iha, ← ihb]
    cases lowerExpr a <;> cases lowerExpr b <;> simp
  | branch c t e => rfl

/-- The initial compiler state is well formed. -/
theorem CompilerState.initial_WF : CompilerState.initial.WF := by
  intro sig kern hmem
  simp [CompilerState.initial] at hmem

/-- A successful association-list lookup is a membership witness. -/
theorem lookup_mem_assoc {α β : Type} [BEq α] [LawfulBEq α]
    {l : List (α × β)} {a : α} {b : β} (h : l.lookup a = some b) : (a, b) ∈ l := by
  induction l with
  | nil => simp [List.lookup] at h
  | cons p ps ih =>
    obtain ⟨k, v⟩ := p
    cases hk : a == k with
    | true =>
      simp only [List.lookup, hk, Option.some.injEq] at h
      subst h
      have hak : a = k := eq_of_beq hk
      subst hak
      exact List.mem_cons_self _ _
    | false =>
      simp only [List.lookup, hk] at h
      exact List.mem_cons_of_mem _ (ih h)

/-- Compilation preserves cache well-formedness. -/
theorem compile_preserves_WF (st : CompilerState) (c : Callable) (k : OpKind)
    (kern : CompiledKernel) (st' : CompilerState)
    (hwf : st.WF) (h : compile st c k = .ok (kern, st')) : st'.WF := by
  cases hsig : signature_of c with
  | error e =>
    simp only [compile, hsig] at h
    exact Except.noConfusion h
  | ok sig =>
    simp only [compile, hsig] at h
    cases hl : st.cache.lookup sig with
    | some kern0 =>
      simp only [hl, Except.ok.injEq, Prod.mk.injEq] at h
      obtain ⟨_, rfl⟩ := h
      exact hwf
    | none =>
      simp only [hl] at h
      cases hlow : lowerExpr sig.body with
      | none =>
        simp only [hlow] at h
        exact Except.noConfusion h
      | some code =>
        simp only [hlow, Except.ok.injEq, Prod.mk.injEq] at h
        obtain ⟨hk, hst⟩ := h
        subst hst
        intro sig' kern' hmem
        rcases List.mem_cons.mp hmem with heq | hmem'
        · simp only [Prod.mk.injEq] at heq
          obtain ⟨rfl, rfl⟩ := heq
          rw [hlow]
        · exact hwf sig' kern' hmem'

/-- A successful compile yields a kernel whose code is the lowering of
the callable's body. -/
theorem compile_ok_code (st : CompilerState) (c : Callable) (k : OpKind)
    (kern : CompiledKernel) (st' : CompilerState)
    (hwf : st.WF) (h : compile st c k = .ok (kern, st')) :
    lowerExpr c.body = some kern.code := by
  cases hsig : signature_of c with
  | error e =>
    simp only [compile, hsig] at h
    exact Except.noConfusion h
  | ok sig =>
    have hbody : sig.body = c.body := by
      unfold signature_of at hsig
      by_cases hs : c.body.supported
      · simp [hs] at hsig; rw [← hsig]
      · simp [hs] at hsig
    simp only [compile, hsig] at h
    cases hl : st.cache.lookup sig with
    | some kern0 =>
      simp only [hl, Except.ok.injEq, Prod.mk.injEq] at h
      obtain ⟨hk, _⟩ := h
      have hmem := hwf sig kern0 (lookup_mem_assoc hl)
      rw [← hbody, hmem, hk]
    | none =>
      simp only [hl] at h
      cases hlow : lowerExpr sig.body with
      | none =>
        simp only [hlow] at h
        exact Except.noConfusion h
      | some code =>
        simp only [hlow, Except.ok.injEq, Prod.mk.injEq] at h
        obtain ⟨hk, _⟩ := h
        rw [← hbody, hlow, ← hk]

/-- Concatenating the chunks gives back the original list. -/
theorem chunkList_flatten {α : Type} (l : List α) : (chunkList l).flatten = l := by
  have main : ∀ (n : Nat) (l : List α), l.length ≤ n → (chunkList l).flatten = l := by
    intro n
    induction n with
    | zero =>
      intro l h
      have : l = [] := List.eq_nil_of_length_eq_zero (Nat.le_zero.mp h)
      subst this
      simp [chunkList]
    | succ n ih =>
      intro n' h
      cases n' with
      | nil => simp [chunkList]
      | cons x xs =>
        rw [chunkList, List.flatten_cons]
        have hlen : ((x :: xs).drop GROUP_SIZE).length ≤ n := by
          simp only [List.length_drop, List.length_cons, GROUP_SIZE]
          simp only [List.length_cons] at h
          omega
        rw [ih _ hlen, List.take_append_drop]
  exact main l.length l le_rfl

/-! ## Equivalence lemmas for the dispatcher paths -/

/-- Folding from a combined seed pulls out through an associative
operation. -/
theorem foldl_assoc_pull (f : Rat → Rat → Rat)
    (hassoc : ∀ a b c, f (f a b) c = f a (f b c)) :
    ∀ (l : List Rat) (a b : Rat), l.foldl f (f a b) = f a (l.foldl f b) := by
  intro l
  induction l with
  | nil => intro a b; rfl
  | cons x xs ih =>
    intro a b
    rw [List.foldl_cons, List.foldl_cons, hassoc, ih]

/-- The grouped/tree reduction agrees exactly with the strict
left-to-right fold for an associative combiner with identity. -/
theorem grouped_reduce_eq_foldl (f : Rat → Rat → Rat) (ident : Rat)
    (hassoc : ∀ a b c, f (f a b) c = f a (f b c))
    (hidr : ∀ a, f a ident = a) (xs : List Rat) :
    grouped_reduce f ident xs = xs.foldl f ident := by
  have key : ∀ (chunks : List (List Rat)) (acc : Rat),
      (chunks.map (fun g => g.foldl f ident)).foldl f acc = chunks.flatten.foldl f acc := by
    intro chunks
    induction chunks with
    | nil => intro acc; rfl
    | cons c cs ih =>
      intro acc
      rw [List.map_cons, List.foldl_cons, List.flatten_cons, List.foldl_append, ih]
      have hc : f acc (c.foldl f ident) = c.foldl f acc := by
        rw [← foldl_assoc_pull f hassoc c acc ident, hidr]
      rw [hc]
  rw [grouped_reduce, key, chunkList_flatten]

/-- The host-parallel chunked execution computes the plain map. -/
theorem host_parallel_for_each_eq (c : Callable) (xs : List Rat) :
    host_parallel_for_each c xs = xs.map c.eval1 := by
  rw [host_parallel_for_each, ← List.map_flatten, chunkList_flatten]

/-- A work-item map over a correctly compiled kernel computes the
callable's host map. -/
theorem device_map_eq (st : CompilerState) (c : Callable) (k : OpKind)
    (kern : CompiledKernel) (st' : CompilerState)
    (hwf : st.WF) (h : compile st c k = .ok (kern, st')) (xs : List Rat) :
    device_map kern c.captures xs = xs.map c.eval1 := by
  have hc := compile_ok_code st c k kern st' hwf h
  have hfun : (fun x => runKernelCode kern.code [x] c.captures) = c.eval1 :=
    funext fun x => runKernelCode_eq_eval c.body kern.code [x] c.captures hc
  rw [device_map, hfun]

/-- A pairwise combine through a correctly compiled reduce kernel is
the combiner's host evaluation. -/
theorem device_combine_eq (st : CompilerState) (comb : Callable) (k : OpKind)
    (kern : CompiledKernel) (st' : CompilerState)
    (hwf : st.WF) (h : compile st comb k = .ok (kern, st')) :
    (fun a b => runKernelCode kern.code [a, b] comb.captures) = comb.eval2 := by
  have hc := compile_ok_code st comb k kern st' hwf h
  funext a b
  exact runKernelCode_eq_eval comb.body kern.code [a, b] comb.captures hc

/-- PARALLEL_DEVICE_PREFERRED `for_each` equals SEQUENTIAL on every
callable and input, from any well-formed compiler state. -/
theorem for_each_PDP_eq_seq (st : CompilerState) (c : Callable) (xs : List Rat)
    (hwf : st.WF) :
    (for_each .PARALLEL_DEVICE_PREFERRED st c xs).1 = (for_each .SEQUENTIAL st c xs).1 := by
  simp only [for_each]
  split
  · exact host_parallel_for_each_eq c xs
  · cases hcmp : compile st c .APPLY with
    | error e => simp only [hcmp]; exact host_parallel_for_each_eq c xs
    | ok p =>
      obtain ⟨kern, st'⟩ := p
      simp only [hcmp]
      exact device_map_eq st c .APPLY kern st' hwf hcmp xs

/-- PARALLEL_DEVICE_PREFERRED `transform` equals SEQUENTIAL on every
callable and input, from any well-formed compiler state. -/
theorem transform_PDP_eq_seq (st : CompilerState) (c : Callable) (xs : List Rat)
    (hwf : st.WF) :
    (transform .PARALLEL_DEVICE_PREFERRED st c xs).1 = (transform .SEQUENTIAL st c xs).1 := by
  simp only [transform]
  split
  · exact host_parallel_for_each_eq c xs
  · cases hcmp : compile st c .TRANSFORM with
    | error e => simp only [hcmp]; exact host_parallel_for_each_eq c xs
    | ok p =>
      obtain ⟨kern, st'⟩ := p
      simp only [hcmp]
      exact device_map_eq st c .TRANSFORM kern st' hwf hcmp xs

/-- PARALLEL_DEVICE_PREFERRED `reduce` equals the SEQUENTIAL
left-to-right fold exactly, for an associative combiner with a
two-sided identity. -/
theorem reduce_PDP_eq_seq (st : CompilerState) (comb : Callable) (ident : Rat)
    (xs : List Rat) (hwf : st.WF)
    (hassoc : ∀ a b c, comb.eval2 (comb.eval2 a b) c = comb.eval2 a (comb.eval2 b c))
    (hidr : ∀ a, comb.eval2 a ident = a) :
    (reduce .PARALLEL_DEVICE_PREFERRED st comb ident xs).1 =
      (reduce .SEQUENTIAL st comb ident xs).1 := by
  simp only [reduce]
  split
  · exact grouped_reduce_eq_foldl comb.eval2 ident hassoc hidr xs
  · cases hcmp : compile st comb .REDUCE with
    | error e =>
      simp only [hcmp]
      exact grouped_reduce_eq_foldl comb.eval2 ident hassoc hidr xs
    | ok p =>
      obtain ⟨kern, st'⟩ := p
      simp only [hcmp]
      rw [device_combine_eq st comb .REDUCE kern st' hwf hcmp]
      exact grouped_reduce_eq_foldl comb.eval2 ident hassoc hidr xs

/-- Unsupported callables fail compilation with
`UnsupportedOperation`, from any state. -/
theorem compile_unsupported (st : CompilerState) (c : Callable) (k : OpKind)
    (h : c.body.supported = false) :
    compile st c k = .error .UnsupportedOperation := by
  simp [compile, signature_of, h]

/-! ### Association-list lemmas for the handle table -/

/-- Removing every entry of a handle makes its lookup fail. -/
theorem lookup_filter_self {α : Type} (l : List (Nat × α)) (h : Nat) :
    (l.filter (fun p => !(p.1 == h))).lookup h = none := by
  induction l with
  | nil => rfl
  | cons p ps ih =>
    rw [List.filter_cons]
    by_cases hp : p.1 = h
    · simp [hp, ih]
    · have h1 : (p.1 == h) = false := by simp [hp]
      simp only [h1, Bool.not_false, if_pos]
      rw [List.lookup]
      have h2 : (h == p.1) = false := by simp [Ne.symm hp]
      simp [h2, ih]

/-- Updating a present handle makes its lookup return the new value. -/
theorem lookup_map_update {α : Type} (l : List (Nat × α)) (h : Nat) (a : α)
    (hl : (l.lookup h).isSome) :
    (l.map (fun p => if p.1 == h then (p.1, a) else p)).lookup h = some a := by
  induction l with
  | nil => simp at hl
  | cons p ps ih =>
    obtain ⟨k, v⟩ := p
    rw [List.map_cons]
    by_cases hk : k = h
    · subst hk
      simp
    · have h1 : (k == h) = false := by simp [hk]
      have h2 : (h == k) = false := by simp [Ne.symm hk]
      simp only [List.lookup_cons, h2] at hl
      simp only [h1, Bool.false_eq_true, if_false, List.lookup_cons, h2]
      exact ih hl

/-- Freeing a handle succeeds into a state where its lookup fails. -/
theorem free_ok_lookup_none (mm mm' : MemoryManager) (h : Nat)
    (hf : free mm h = .ok mm') : mm'.allocs.lookup h = none := by
  cases hl : mm.allocs.lookup h with
  | none =>
    simp only [free, hl] at hf
    exact Except.noConfusion hf
  | some cells =>
    simp only [free, hl, Except.ok.injEq] at hf
    subst hf
    exact lookup_filter_self mm.allocs h

/-! ### Cell-level coherence lemmas -/

/-- Sync preserves block well-formedness. -/
theorem syncCell_WF (tgt : Target) (cl : Cell) (hwf : cl.WF) : (syncCell tgt cl).WF := by
  obtain ⟨h1, h2⟩ := hwf
  cases tgt with
  | HOST =>
    by_cases hh : cl.bst.hostValid
    · simpa [syncCell, hh] using ⟨h1, h2⟩
    · simp [syncCell, hh, Cell.WF]
  | DEVICE =>
    by_cases hd : cl.bst.deviceValid
    · simpa [syncCell, hd] using ⟨h1, h2⟩
    · simp [syncCell, hd, Cell.WF]

/-- Marking an owner always yields a well-formed (exclusively owned)
block. -/
theorem markDirtyCell_WF (owner : Target) (cl : Cell) : (markDirtyCell owner cl).WF := by
  cases owner <;> simp [markDirtyCell, Cell.WF]

/-- After a host sync, the host copy is the authoritative contents. -/
theorem syncCell_HOST_host (cl : Cell) (hwf : cl.WF) :
    (syncCell .HOST cl).host = cl.value := by
  obtain ⟨h1, h2⟩ := hwf
  by_cases hh : cl.bst.hostValid
  · by_cases hd : cl.bst.deviceValid
    · simp [syncCell, hh, Cell.value, hd, h2 hh hd]
    · simp [syncCell, hh, Cell.value, hd]
  · rcases h1 with h1 | h1
    · exact absurd h1 hh
    · simp [syncCell, hh, Cell.value, h1]

/-- After a device sync, the device copy is the authoritative
contents. -/
theorem syncCell_DEVICE_device (cl : Cell) (hwf : cl.WF) :
    (syncCell .DEVICE cl).device = cl.value := by
  obtain ⟨h1, h2⟩ := hwf
  by_cases hd : cl.bst.deviceValid
  · simp [syncCell, hd, Cell.value]
  · simp [syncCell, hd, Cell.value]

/-! ### Range-update membership lemmas -/

/-- Every element of an indexed map is the image of some original
element. -/
theorem mem_mapIdxFrom {α : Type} (f : Nat → α → α) :
    ∀ (i : Nat) (xs : List α) (y : α), y ∈ mapIdxFrom f i xs →
      ∃ j x, x ∈ xs ∧ y = f j x := by
  intro i xs
  induction xs generalizing i with
  | nil => intro y hy; simp [mapIdxFrom] at hy
  | cons x xs ih =>
    intro y hy
    rw [mapIdxFrom] at hy
    rcases List.mem_cons.mp hy with h1 | h2
    · exact ⟨i, x, List.mem_cons_self _ _, h1⟩
    · obtain ⟨j, x', hx', hy'⟩ := ih (i + 1) y h2
      exact ⟨j, x', List.mem_cons_of_mem _ hx', hy'⟩

/-- Every cell after a range update is either untouched or the image
of an original cell. -/
theorem mem_mapRange (lo len : Nat) (f : Cell → Cell) (cells : List Cell) (y : Cell)
    (hy : y ∈ mapRange lo len f cells) :
    (∃ x ∈ cells, y = f x) ∨ y ∈ cells := by
  obtain ⟨j, x, hx, hyx⟩ := mem_mapIdxFrom _ 0 cells y hy
  by_cases hj : lo ≤ j ∧ j < lo + len
  · left
    exact ⟨x, hx, by simpa [hj] using hyx⟩
  · right
    have hxy : y = x := by simp only [hj, if_false] at hyx; exact hyx
    rw [hxy]
    exact hx

/-! ### Operations on a missing handle fail with `InvalidHandle` -/

/-- A free of an unknown or already-freed handle fails. -/
theorem free_lookup_none (mm : MemoryManager) (h : Nat)
    (hl : mm.allocs.lookup h = none) : free mm h = .error .InvalidHandle := by
  simp [free, hl]

/-- An `ensure_resident` on an unknown or freed handle fails. -/
theorem ensure_resident_lookup_none (mm : MemoryManager) (h lo len : Nat) (tgt : Target)
    (hl : mm.allocs.lookup h = none) :
    ensure_resident mm h lo len tgt = .error .InvalidHandle := by
  simp [ensure_resident, hl]

/-- A `mark_dirty` on an unknown or freed handle fails. -/
theorem mark_dirty_lookup_none (mm : MemoryManager) (h lo len : Nat) (owner : Target)
    (hl : mm.allocs.lookup h = none) :
    mark_dirty mm h lo len owner = .error .InvalidHandle := by
  simp [mark_dirty, hl]

/-- A parallel algorithm on an unknown or freed handle fails. -/
theorem for_each_h_lookup_none (cst : CompilerState) (mm : MemoryManager) (h : Nat)
    (c : Callable) (hl : mm.allocs.lookup h = none) :
    for_each_h cst mm h c = .error .InvalidHandle := by
  simp [for_each_h, hl]

/-! ### Well-formedness preservation (spec §3 invariant, §5 sync rule) -/

/-- Updating a handle with well-formed cells preserves manager
well-formedness. -/
theorem update_WF (mm : MemoryManager) (h : Nat) (cells1 : List Cell)
    (hwf : mm.WF) (hc : ∀ cl ∈ cells1, cl.WF) : (mm.update h cells1).WF := by
  intro p' hp' cl hcl
  obtain ⟨p, hp, hpe⟩ := List.mem_map.mp hp'
  by_cases hph : (p.1 == h) = true
  · simp only [hph, if_true] at hpe
    subst hpe
    exact hc cl hcl
  · simp only [hph, Bool.false_eq_true, if_false] at hpe
    subst hpe
    exact hwf p hp cl hcl

/-- `allocate` preserves manager well-formedness: the fresh
allocation's blocks are host-owned and well formed. -/
theorem allocate_WF (mm : MemoryManager) (n : Nat) (hwf : mm.WF) :
    (allocate mm n).2.WF := by
  intro p hp cl hcl
  rcases List.mem_cons.mp hp with heq | hmem
  · subst heq
    have := (List.eq_of_mem_replicate hcl)
    rw [this]
    exact ⟨Or.inl rfl, by intro _ hd; exact absurd hd (by simp)⟩
  · exact hwf p hmem cl hcl

/-- `ensure_resident` preserves manager well-formedness. -/
theorem ensure_resident_WF (mm mm' : MemoryManager) (h lo len : Nat) (tgt : Target)
    (hwf : mm.WF) (hok : ensure_resident mm h lo len tgt = .ok mm') : mm'.WF := by
  cases hl : mm.allocs.lookup h with
  | none =>
    simp only [ensure_resident, hl] at hok
    exact Except.noConfusion hok
  | some cells =>
    simp only [ensure_resident, hl, Except.ok.injEq] at hok
    subst hok
    have hcellsWF : ∀ cl ∈ cells, cl.WF := hwf _ (lookup_mem_assoc hl)
    apply update_WF _ _ _ hwf
    intro cl hcl
    rcases mem_mapRange _ _ _ _ _ hcl with ⟨x, hx, rfl⟩ | hmem
    · exact syncCell_WF _ _ (hcellsWF x hx)
    · exact hcellsWF cl hmem

/-- `mark_dirty` preserves manager well-formedness. -/
theorem mark_dirty_WF (mm mm' : MemoryManager) (h lo len : Nat) (owner : Target)
    (hwf : mm.WF) (hok : mark_dirty mm h lo len owner = .ok mm') : mm'.WF := by
  cases hl : mm.allocs.lookup h with
  | none =>
    simp only [mark_dirty, hl] at hok
    exact Except.noConfusion hok
  | some cells =>
    simp only [mark_dirty, hl, Except.ok.injEq] at hok
    subst hok
    apply update_WF _ _ _ hwf
    intro cl hcl
    rcases mem_mapRange _ _ _ _ _ hcl with ⟨x, _, rfl⟩ | hmem
    · exact markDirtyCell_WF _ _
    · exact hwf _ (lookup_mem_assoc hl) cl hmem

/-- `free` preserves manager well-formedness. -/
theorem free_WF (mm mm' : MemoryManager) (h : Nat)
    (hwf : mm.WF) (hok : free mm h = .ok mm') : mm'.WF := by
  cases hl : mm.allocs.lookup h with
  | none =>
    simp only [free, hl] at hok
    exact Except.noConfusion hok
  | some cells =>
    simp only [free, hl, Except.ok.injEq] at hok
    subst hok
    intro p hp cl hcl
    exact hwf p (List.mem_of_mem_filter hp) cl hcl

/-- A completed dispatch (`for_each_h`) preserves manager
well-formedness: every touched block ends exclusively owned. -/
theorem for_each_h_WF (cst : CompilerState) (mm : MemoryManager) (h : Nat)
    (c : Callable) (mm' : MemoryManager) (cst' : CompilerState)
    (hwf : mm.WF) (hok : for_each_h cst mm h c = .ok (mm', cst')) : mm'.WF := by
  cases hl : mm.allocs.lookup h with
  | none =>
    simp only [for_each_h, hl] at hok
    exact Except.noConfusion hok
  | some cells =>
    cases hcmp : compile cst c .APPLY with
    | error e =>
      simp only [for_each_h, hl, hcmp, Except.ok.injEq, Prod.mk.injEq] at hok
      obtain ⟨hmm, _⟩ := hok
      subst hmm
      apply update_WF _ _ _ hwf
      intro cl hcl
      obtain ⟨x, _, rfl⟩ := List.mem_map.mp hcl
      exact markDirtyCell_WF _ _
    | ok p =>
      obtain ⟨kern, cst1⟩ := p
      simp only [for_each_h, hl, hcmp, Except.ok.injEq, Prod.mk.injEq] at hok
      obtain ⟨hmm, _⟩ := hok
      subst hmm
      apply update_WF _ _ _ hwf
      intro cl hcl
      obtain ⟨x, _, rfl⟩ := List.mem_map.mp hcl
      exact markDirtyCell_WF _ _

/-! ### Coherence round-trip -/

/-- Host-fallback path of one block: writing the host copy and
marking host-owned, then reading through the host barrier, observes
the written value. -/
theorem cell_host_path (c : Callable) (cl : Cell) (hwf : cl.WF) :
    (syncCell .HOST (markDirtyCell .HOST
      ⟨c.eval1 (syncCell .HOST cl).host, (syncCell .HOST cl).device,
        (syncCell .HOST cl).bst⟩)).host = c.eval1 cl.value := by
  rw [← syncCell_HOST_host cl hwf]
  simp [markDirtyCell, syncCell]

/-- Device-dispatch path of one block: the kernel writes the device
copy from the authoritative contents, the block is marked
device-owned, and a host read through the barrier observes the
kernel's result. -/
theorem cell_device_path (g : Rat → Rat) (cl : Cell) (hwf : cl.WF) :
    (syncCell .HOST (markDirtyCell .DEVICE
      ⟨(syncCell .DEVICE cl).host, g (syncCell .DEVICE cl).device,
        (syncCell .DEVICE cl).bst⟩)).host = g cl.value := by
  rw [← syncCell_DEVICE_device cl hwf]
  simp [markDirtyCell, syncCell]

/-- Reading through the barrier from a live handle yields the synced
host bytes. -/
theorem host_read_all_eq (mm : MemoryManager) (h : Nat) (cells : List Cell)
    (hl : mm.allocs.lookup h = some cells) :
    host_read_all mm h = .ok ((cells.map (syncCell .HOST)).map Cell.host) := by
  simp [host_read_all, hl]

/-- Coherence round-trip: a `for_each` dispatched over a handle —
through the device kernel when compilation succeeds, through the host
fallback otherwise — is observed in full by a subsequent host-side
read with no explicit synchronization by the caller, the read barrier
`ensure_resident(HOST)` being applied transparently. -/
theorem for_each_h_roundtrip (cst : CompilerState) (mm : MemoryManager) (h : Nat)
    (c : Callable) (cells : List Cell) (mm' : MemoryManager) (cst' : CompilerState)
    (hcwf : cst.WF) (hmwf : mm.WF) (hl : mm.allocs.lookup h = some cells)
    (hrun : for_each_h cst mm h c = .ok (mm', cst')) :
    host_read_all mm' h = .ok (cells.map (fun cl => c.eval1 cl.value)) := by
  have hcellsWF : ∀ cl ∈ cells, cl.WF := hmwf _ (lookup_mem_assoc hl)
  cases hcmp : compile cst c .APPLY with
  | error e =>
    simp only [for_each_h, hl, hcmp, Except.ok.injEq, Prod.mk.injEq] at hrun
    obtain ⟨hmm, _⟩ := hrun
    subst hmm
    have hl1 : (mm.update h ((cells.map (syncCell .HOST)).map
        (fun cl => markDirtyCell .HOST ⟨c.eval1 cl.host, cl.device, cl.bst⟩))).allocs.lookup h
        = some ((cells.map (syncCell .HOST)).map
        (fun cl => markDirtyCell .HOST ⟨c.eval1 cl.host, cl.device, cl.bst⟩)) :=
      lookup_map_update mm.allocs h _ (by simp [hl])
    rw [host_read_all_eq _ _ _ hl1]
    congr 1
    rw [List.map_map, List.map_map, List.map_map]
    apply List.map_congr_left
    intro cl hcl
    simp only [Function.comp_apply]
    exact cell_host_path c cl (hcellsWF cl hcl)
  | ok p =>
    obtain ⟨kern, cst1⟩ := p
    have hker : ∀ x, runKernelCode kern.code [x] c.captures = c.eval1 x := by
      intro x
      exact runKernelCode_eq_eval c.body kern.code [x] c.captures
        (compile_ok_code cst c .APPLY kern cst1 hcwf hcmp)
    simp only [for_each_h, hl, hcmp, Except.ok.injEq, Prod.mk.injEq] at hrun
    obtain ⟨hmm, _⟩ := hrun
    subst hmm
    have hl1 : (mm.update h ((cells.map (syncCell .DEVICE)).map
        (fun cl => markDirtyCell .DEVICE
          ⟨cl.host, runKernelCode kern.code [cl.device] c.captures, cl.bst⟩))).allocs.lookup h
        = some ((cells.map (syncCell .DEVICE)).map
        (fun cl => markDirtyCell .DEVICE
          ⟨cl.host, runKernelCode kern.code [cl.device] c.captures, cl.bst⟩)) :=
      lookup_map_update mm.allocs h _ (by simp [hl])
    rw [host_read_all_eq _ _ _ hl1]
    congr 1
    rw [List.map_map, List.map_map, List.map_map]
    apply List.map_congr_left
    intro cl hcl
    simp only [Function.comp_apply]
    rw [cell_device_path (fun x => runKernelCode kern.code [x] c.captures) cl
      (hcellsWF cl hcl), hker]

/-- After a successful compile, recompiling any callable of the same
operation shape — whatever its captured values — is a cache hit: it
returns the same kernel and leaves the compiler state (including the
compilation counter) unchanged. -/
theorem compile_hit (st st1 : CompilerState) (c c' : Callable) (k : OpKind)
    (kern : CompiledKernel) (hok : compile st c k = .ok (kern, st1))
    (hbody : c'.body = c.body) :
    compile st1 c' k = .ok (kern, st1) := by
  cases hsig : signature_of c with
  | error e =>
    simp only [compile, hsig] at hok
    exact Except.noConfusion hok
  | ok sig =>
    have hsup : c.body.supported = true := by
      by_cases hs : c.body.supported
      · exact hs
      · simp [signature_of, hs] at hsig
    have hsigc : sig = ⟨c.body⟩ := by
      simp only [signature_of, hsup, if_true, Except.ok.injEq] at hsig
      exact hsig.symm
    have hsig' : signature_of c' = .ok sig := by
      simp [signature_of, hbody, hsup, hsigc]
    have hcache : st1.cache.lookup sig = some kern := by
      simp only [compile, hsig] at hok
      cases hl : st.cache.lookup sig with
      | some kern0 =>
        simp only [hl, Except.ok.injEq, Prod.mk.injEq] at hok
        obtain ⟨hk, hst⟩ := hok
        rw [← hst, hl, hk]
      | none =>
        simp only [hl] at hok
        cases hlow : lowerExpr sig.body with
        | none =>
          simp only [hlow] at hok
          exact Except.noConfusion hok
        | some code =>
          simp only [hlow, Except.ok.injEq, Prod.mk.injEq] at hok
          obtain ⟨hk, hst⟩ := hok
          rw [← hst]
          simp [List.lookup_cons, hk]
    simp [compile, hsig', hcache]

/-- Repeated recompilation of an already-cached shape leaves the
compiler state fixed, for any number of calls. -/
theorem compileN_fixed (st1 : CompilerState) (c' : Callable) (k : OpKind)
    (kern : CompiledKernel) (hhit : compile st1 c' k = .ok (kern, st1)) :
    ∀ n, compileN n st1 c' k = st1 := by
  intro n
  induction n with
  | zero => rfl
  | succ n ih => simp only [compileN, hhit, ih]

/-- `compile` depends on the callable only through its operation
shape, never through its captured values. -/
theorem compile_body_congr (st : CompilerState) (c c' : Callable) (k : OpKind)
    (hbody : c.body = c'.body) : compile st c k = compile st c' k := by
  have hs : signature_of c = signature_of c' := by simp [signature_of, hbody]
  simp only [compile, hs]

/-- A first successful compile from the fresh state is a cache miss
that runs lowering exactly once. -/
theorem compile_initial_count (c : Callable) (k : OpKind)
    (kern : CompiledKernel) (st1 : CompilerState)
    (hok : compile CompilerState.initial c k = .ok (kern, st1)) :
    st1.lowerCount = 1 := by
  cases hsig : signature_of c with
  | error e =>
    simp only [compile, hsig] at hok
    exact Except.noConfusion hok
  | ok sig =>
    simp only [compile, hsig, CompilerState.initial, List.lookup_nil] at hok
    cases hlow : lowerExpr sig.body with
    | none =>
      simp only [hlow] at hok
      exact Except.noConfusion hok
    | some code =>
      simp only [hlow, Except.ok.injEq, Prod.mk.injEq] at hok
      obtain ⟨_, hst⟩ := hok
      rw [← hst]

/-! ## Scenario helpers -/

/-- Binary addition expressed as a reduce combiner callable. -/
theorem addC_eval2 (a b : Rat) :
    Callable.eval2 ⟨.add (.param 0) (.param 1), []⟩ a b = a + b := by
  simp [Callable.eval2, Expr.eval]

/-- Folding addition over n ones counts to n. -/
theorem foldl_add_replicate (n : Nat) (q : Rat) :
    (List.replicate n (1 : Rat)).foldl (fun a b => a + b) q = q + n := by
  induction n generalizing q with
  | zero => simp
  | succ n ih =>
    rw [List.replicate_succ, List.foldl_cons, ih]
    push_cast
    ring

/-- Addition-combiner associativity, at the callable level. -/
theorem addC_assoc (a b d : Rat) :
    Callable.eval2 ⟨.add (.param 0) (.param 1), []⟩
        (Callable.eval2 ⟨.add (.param 0) (.param 1), []⟩ a b) d =
      Callable.eval2 ⟨.add (.param 0) (.param 1), []⟩ a
        (Callable.eval2 ⟨.add (.param 0) (.param 1), []⟩ b d) := by
  rw [addC_eval2, addC_eval2, addC_eval2, addC_eval2]
  ring

/-- Zero is a right identity of the addition combiner. -/
theorem addC_idr (a : Rat) :
    Callable.eval2 ⟨.add (.param 0) (.param 1), []⟩ a 0 = a := by
  rw [addC_eval2, add_zero]

/-! ## Claim theorems -/

/-- Claim C1: for every callable and every input array, `for_each`,
`transform` and `reduce` under PARALLEL_DEVICE_PREFERRED produce the
same result as under SEQUENTIAL — exactly for for_each and transform,
and (for an associative combiner with identity) exactly, hence within
the fixed relative tolerance, for reduce. -/
theorem claim_c1_policy_equivalence (st : CompilerState) (c comb : Callable)
    (ident : Rat) (xs : List Rat) (hwf : st.WF)
    (hassoc : ∀ a b d, comb.eval2 (comb.eval2 a b) d = comb.eval2 a (comb.eval2 b d))
    (hidr : ∀ a, comb.eval2 a ident = a) :
    (for_each .PARALLEL_DEVICE_PREFERRED st c xs).1 =
      (for_each .SEQUENTIAL st c xs).1 ∧
    (transform .PARALLEL_DEVICE_PREFERRED st c xs).1 =
      (transform .SEQUENTIAL st c xs).1 ∧
    (reduce .PARALLEL_DEVICE_PREFERRED st comb ident xs).1 =
      (reduce .SEQUENTIAL st comb ident xs).1 ∧
    |(reduce .PARALLEL_DEVICE_PREFERRED st comb ident xs).1 -
        (reduce .SEQUENTIAL st comb ident xs).1| ≤
      REDUCE_REL_TOL * max |(reduce .SEQUENTIAL st comb ident xs).1| 1 := by
  have hr := reduce_PDP_eq_seq st comb ident xs hwf hassoc hidr
  refine ⟨for_each_PDP_eq_seq st c xs hwf, transform_PDP_eq_seq st c xs hwf, hr, ?_⟩
  rw [hr, sub_self, abs_zero]
  have h1 : (0 : Rat) ≤ REDUCE_REL_TOL := by norm_num [REDUCE_REL_TOL]
  exact mul_nonneg h1 (le_trans zero_le_one (le_max_right _ _))

/-- Claim C1 witness: the equivalence instantiated at the doubling
callable, the addition combiner with identity 0, and a concrete
array. -/
theorem claim_c1_policy_equivalence_witness :
    (for_each .PARALLEL_DEVICE_PREFERRED CompilerState.initial
        ⟨.mul (.param 0) (.lit 2), []⟩ [1, 2, 3]).1 =
      (for_each .SEQUENTIAL CompilerState.initial
        ⟨.mul (.param 0) (.lit 2), []⟩ [1, 2, 3]).1 ∧
    (transform .PARALLEL_DEVICE_PREFERRED CompilerState.initial
        ⟨.mul (.param 0) (.lit 2), []⟩ [1, 2, 3]).1 =
      (transform .SEQUENTIAL CompilerState.initial
        ⟨.mul (.param 0) (.lit 2), []⟩ [1, 2, 3]).1 ∧
    (reduce .PARALLEL_DEVICE_PREFERRED CompilerState.initial
        ⟨.add (.param 0) (.param 1), []⟩ 0 [1, 2, 3]).1 =
      (reduce .SEQUENTIAL CompilerState.initial
        ⟨.add (.param 0) (.param 1), []⟩ 0 [1, 2, 3]).1 ∧
    |(reduce .PARALLEL_DEVICE_PREFERRED CompilerState.initial
        ⟨.add (.param 0) (.param 1), []⟩ 0 [1, 2, 3]).1 -
        (reduce .SEQUENTIAL CompilerState.initial
          ⟨.add (.param 0) (.param 1), []⟩ 0 [1, 2, 3]).1| ≤
      REDUCE_REL_TOL * max |(reduce .SEQUENTIAL CompilerState.initial
        ⟨.add (.param 0) (.param 1), []⟩ 0 [1, 2, 3]).1| 1 :=
  claim_c1_policy_equivalence CompilerState.initial
    ⟨.mul (.param 0) (.lit 2), []⟩ ⟨.add (.param 0) (.param 1), []⟩ 0 [1, 2, 3]
    (by decide) addC_assoc addC_idr

/-- Claim C2: applying `x *= 2.0` with `for_each` under
PARALLEL_DEVICE_PREFERRED to 10,000 elements all 5.0 leaves every
element equal to 10.0. -/
theorem claim_c2_for_each_scenario :
    (for_each .PARALLEL_DEVICE_PREFERRED CompilerState.initial
        ⟨.mul (.param 0) (.lit 2), []⟩ (List.replicate 10000 5)).1 =
      List.replicate 10000 10 := by
  rw [for_each_PDP_eq_seq _ _ _ CompilerState.initial_WF]
  show List.map _ (List.replicate 10000 5) = _
  rw [List.map_replicate]
  norm_num [Callable.eval1, Expr.eval]

/-- Claim C3: transforming an all-3.0 array of any length with
`x -> x*2+1` under PARALLEL_DEVICE_PREFERRED writes 7.0 into every
output element. -/
theorem claim_c3_transform_scenario (n : Nat) :
    (transform .PARALLEL_DEVICE_PREFERRED CompilerState.initial
        ⟨.add (.mul (.param 0) (.lit 2)) (.lit 1), []⟩ (List.replicate n 3)).1 =
      List.replicate n 7 := by
  rw [transform_PDP_eq_seq _ _ _ CompilerState.initial_WF]
  show List.map _ (List.replicate n 3) = _
  rw [List.map_replicate]
  norm_num [Callable.eval1, Expr.eval]

/-- Claim C4: reducing 1,000,000 ones with identity 0 and addition
under PARALLEL_DEVICE_PREFERRED yields exactly 1,000,000 — within
absolute tolerance 0.1 — and in general the grouped reduction of any
input with the addition combiner equals the strict left-to-right
fold. -/
theorem claim_c4_reduce_scenario :
    (reduce .PARALLEL_DEVICE_PREFERRED CompilerState.initial
        ⟨.add (.param 0) (.param 1), []⟩ 0 (List.replicate 1000000 1)).1 = 1000000 ∧
    |(reduce .PARALLEL_DEVICE_PREFERRED CompilerState.initial
        ⟨.add (.param 0) (.param 1), []⟩ 0 (List.replicate 1000000 1)).1 - 1000000| ≤
      1 / 10 ∧
    ∀ xs : List Rat,
      (reduce .PARALLEL_DEVICE_PREFERRED CompilerState.initial
          ⟨.add (.param 0) (.param 1), []⟩ 0 xs).1 =
        xs.foldl (fun a b => a + b) 0 := by
  have heval2 : Callable.eval2 ⟨.add (.param 0) (.param 1), []⟩ =
      fun a b => a + b := funext fun a => funext fun b => addC_eval2 a b
  have hgen : ∀ xs : List Rat,
      (reduce .PARALLEL_DEVICE_PREFERRED CompilerState.initial
          ⟨.add (.param 0) (.param 1), []⟩ 0 xs).1 =
        xs.foldl (fun a b => a + b) 0 := by
    intro xs
    rw [reduce_PDP_eq_seq _ _ _ _ CompilerState.initial_WF addC_assoc addC_idr]
    show xs.foldl _ 0 = _
    rw [heval2]
  have h1 : (reduce .PARALLEL_DEVICE_PREFERRED CompilerState.initial
      ⟨.add (.param 0) (.param 1), []⟩ 0 (List.replicate 1000000 1)).1 = 1000000 := by
    rw [hgen, foldl_add_replicate]
    norm_num
  refine ⟨h1, ?_, hgen⟩
  rw [h1]
  norm_num

/-- A compilation failure does not depend on the operation kind: both
error sources (signature computation and lowering) see only the
operation shape. -/
theorem compile_error_kind (st : CompilerState) (c : Callable) (k k' : OpKind)
    (e : PxError) (h : compile st c k = .error e) : compile st c k' = .error e := by
  cases hsig : signature_of c with
  | error e0 =>
    simp only [compile, hsig] at h ⊢
    exact h
  | ok sig =>
    simp only [compile, hsig] at h ⊢
    cases hl : st.cache.lookup sig with
    | some kern =>
      simp only [hl] at h
      exact Except.noConfusion h
    | none =>
      simp only [hl] at h ⊢
      cases hlow : lowerExpr sig.body with
      | none =>
        simp only [hlow] at h ⊢
        exact h
      | some code =>
        simp only [hlow] at h
        exact Except.noConfusion h

/-- Claim C5: compile is idempotent per signature — once a shape is
cached, every further compile of the same shape (whatever its
captured values) returns the cached kernel with the compiler state,
including the compilation counter, unchanged (so after the first
compile from the fresh state the counter is 1 and stays 1 for any
number of repeats), and a compile depends on the callable only
through its shape. -/
theorem claim_c5_cache_idempotent (st st1 : CompilerState) (c c' : Callable)
    (k : OpKind) (kern : CompiledKernel)
    (hok : compile st c k = .ok (kern, st1)) (hbody : c'.body = c.body) :
    compile st1 c' k = .ok (kern, st1) ∧
    (∀ n, compileN n st1 c' k = st1) ∧
    (st = CompilerState.initial → st1.lowerCount = 1) ∧
    compile CompilerState.initial c' k = compile CompilerState.initial c k := by
  have hhit := compile_hit st st1 c c' k kern hok hbody
  refine ⟨hhit, compileN_fixed _ _ _ _ hhit, ?_, compile_body_congr _ _ _ _ hbody⟩
  intro hinit
  subst hinit
  exact compile_initial_count c k kern st1 hok

/-- Claim C5 witness: the capture-multiplying shape compiled once from
the fresh state, recompiled with a different captured value. -/
theorem claim_c5_cache_idempotent_witness :
    compile capMulState ⟨capMulBody, [7]⟩ .APPLY = .ok (capMulKern, capMulState) ∧
    (∀ n, compileN n capMulState ⟨capMulBody, [7]⟩ .APPLY = capMulState) ∧
    (CompilerState.initial = CompilerState.initial → capMulState.lowerCount = 1) ∧
    compile CompilerState.initial ⟨capMulBody, [7]⟩ .APPLY =
      compile CompilerState.initial ⟨capMulBody, [3]⟩ .APPLY :=
  claim_c5_cache_idempotent CompilerState.initial capMulState
    ⟨capMulBody, [3]⟩ ⟨capMulBody, [7]⟩ .APPLY capMulKern rfl rfl

/-- Claim C6: when compilation fails with UnsupportedOperation or
CompilationError, an algorithm call under PARALLEL_DEVICE_PREFERRED
surfaces no error: it runs the host fallback and produces the
SEQUENTIAL result, for both for_each and transform. -/
theorem claim_c6_fallback_correctness (st : CompilerState) (c : Callable)
    (xs : List Rat) (e : PxError)
    (hfail : compile st c .APPLY = .error e)
    (_herr : e = .UnsupportedOperation ∨ e = .CompilationError) :
    (for_each .PARALLEL_DEVICE_PREFERRED st c xs).1 =
      (for_each .SEQUENTIAL st c xs).1 ∧
    (for_each .PARALLEL_DEVICE_PREFERRED st c xs).1 = host_parallel_for_each c xs ∧
    (transform .PARALLEL_DEVICE_PREFERRED st c xs).1 =
      (transform .SEQUENTIAL st c xs).1 ∧
    (transform .PARALLEL_DEVICE_PREFERRED st c xs).1 = host_parallel_for_each c xs := by
  have hfailT := compile_error_kind st c .APPLY .TRANSFORM e hfail
  have h1 : (for_each .PARALLEL_DEVICE_PREFERRED st c xs).1 =
      host_parallel_for_each c xs := by
    simp only [for_each]
    split
    · rfl
    · simp only [hfail]
  have h2 : (transform .PARALLEL_DEVICE_PREFERRED st c xs).1 =
      host_parallel_for_each c xs := by
    simp only [transform]
    split
    · rfl
    · simp only [hfailT]
  refine ⟨?_, h1, ?_, h2⟩
  · rw [h1]
    exact host_parallel_for_each_eq c xs
  · rw [h2]
    exact host_parallel_for_each_eq c xs

/-- Claim C6 witness: a branch-containing callable fails compilation
with UnsupportedOperation, and the device-preferred call still
matches SEQUENTIAL. -/
theorem claim_c6_fallback_correctness_witness :
    (for_each .PARALLEL_DEVICE_PREFERRED CompilerState.initial
        ⟨.branch (.param 0) (.lit 1) (.lit 0), []⟩ [1, 2, 3]).1 =
      (for_each .SEQUENTIAL CompilerState.initial
        ⟨.branch (.param 0) (.lit 1) (.lit 0), []⟩ [1, 2, 3]).1 ∧
    (for_each .PARALLEL_DEVICE_PREFERRED CompilerState.initial
        ⟨.branch (.param 0) (.lit 1) (.lit 0), []⟩ [1, 2, 3]).1 =
      host_parallel_for_each ⟨.branch (.param 0) (.lit 1) (.lit 0), []⟩ [1, 2, 3] ∧
    (transform .PARALLEL_DEVICE_PREFERRED CompilerState.initial
        ⟨.branch (.param 0) (.lit 1) (.lit 0), []⟩ [1, 2, 3]).1 =
      (transform .SEQUENTIAL CompilerState.initial
        ⟨.branch (.param 0) (.lit 1) (.lit 0), []⟩ [1, 2, 3]).1 ∧
    (transform .PARALLEL_DEVICE_PREFERRED CompilerState.initial
        ⟨.branch (.param 0) (.lit 1) (.lit 0), []⟩ [1, 2, 3]).1 =
      host_parallel_for_each ⟨.branch (.param 0) (.lit 1) (.lit 0), []⟩ [1, 2, 3] :=
  claim_c6_fallback_correctness CompilerState.initial
    ⟨.branch (.param 0) (.lit 1) (.lit 0), []⟩ [1, 2, 3] .UnsupportedOperation
    rfl (Or.inl rfl)

/-- Claim C7: `free` fails with InvalidHandle on an unknown or
already-freed handle, and after a successful free every subsequent
`free`, `ensure_resident` or parallel-algorithm call on that handle
fails with InvalidHandle. -/
theorem claim_c7_free_invalid_handle :
    (∀ (mm : MemoryManager) (h : Nat), mm.allocs.lookup h = none →
      free mm h = .error .InvalidHandle) ∧
    (∀ (mm mm' : MemoryManager) (h : Nat), free mm h = .ok mm' →
      free mm' h = .error .InvalidHandle ∧
      (∀ lo len tgt, ensure_resident mm' h lo len tgt = .error .InvalidHandle) ∧
      (∀ cst c, for_each_h cst mm' h c = .error .InvalidHandle)) := by
  refine ⟨fun mm h hl => free_lookup_none mm h hl, fun mm mm' h hok => ?_⟩
  have hnone := free_ok_lookup_none mm mm' h hok
  exact ⟨free_lookup_none mm' h hnone,
    fun lo len tgt => ensure_resident_lookup_none mm' h lo len tgt hnone,
    fun cst c => for_each_h_lookup_none cst mm' h c hnone⟩

/-- Pairwise exclusivity of the three per-block ownership states, for
every possible flag assignment. -/
theorem blockState_exclusive (s : BlockState) :
    ¬(s.hostOwns ∧ s.deviceOwns) ∧ ¬(s.hostOwns ∧ s.sharedClean) ∧
      ¬(s.deviceOwns ∧ s.sharedClean) := by
  obtain ⟨hv, dv⟩ := s
  cases hv <;> cases dv <;>
    simp [BlockState.hostOwns, BlockState.deviceOwns, BlockState.sharedClean]

/-- Claim C8: per block, at most one of host-owns, device-owns,
shared-clean holds at any instant, and block well-formedness (some
side valid; shared-clean sides agree byte-for-byte) is preserved by
every operation — allocate, ensure_resident, mark_dirty, dispatch
completion, free — the only points where block states transition. -/
theorem claim_c8_coherence_invariant :
    (∀ s : BlockState, ¬(s.hostOwns ∧ s.deviceOwns) ∧
      ¬(s.hostOwns ∧ s.sharedClean) ∧ ¬(s.deviceOwns ∧ s.sharedClean)) ∧
    (∀ (mm : MemoryManager) (n : Nat), mm.WF → (allocate mm n).2.WF) ∧
    (∀ (mm mm' : MemoryManager) (h lo len : Nat) (tgt : Target), mm.WF →
      ensure_resident mm h lo len tgt = .ok mm' → mm'.WF) ∧
    (∀ (mm mm' : MemoryManager) (h lo len : Nat) (owner : Target), mm.WF →
      mark_dirty mm h lo len owner = .ok mm' → mm'.WF) ∧
    (∀ (cst : CompilerState) (mm : MemoryManager) (h : Nat) (c : Callable)
      (mm' : MemoryManager) (cst' : CompilerState), mm.WF →
      for_each_h cst mm h c = .ok (mm', cst') → mm'.WF) ∧
    (∀ (mm mm' : MemoryManager) (h : Nat), mm.WF → free mm h = .ok mm' → mm'.WF) :=
  ⟨blockState_exclusive,
    fun mm n hwf => allocate_WF mm n hwf,
    fun mm mm' h lo len tgt hwf hok => ensure_resident_WF mm mm' h lo len tgt hwf hok,
    fun mm mm' h lo len owner hwf hok => mark_dirty_WF mm mm' h lo len owner hwf hok,
    fun cst mm h c mm' cst' hwf hok => for_each_h_WF cst mm h c mm' cst' hwf hok,
    fun mm mm' h hwf hok => free_WF mm mm' h hwf hok⟩

/-- Claim C9: after a dispatch writes an allocation, every host-side
read of it — with no explicit synchronization call by the caller —
observes the dispatch's result: the dispatch blocks until completion
and the read path applies `ensure_resident(HOST)` transparently. -/
theorem claim_c9_coherence_roundtrip (cst : CompilerState) (mm : MemoryManager)
    (h : Nat) (c : Callable) (cells : List Cell) (mm' : MemoryManager)
    (cst' : CompilerState) (hcwf : cst.WF) (hmwf : mm.WF)
    (hl : mm.allocs.lookup h = some cells)
    (hrun : for_each_h cst mm h c = .ok (mm', cst')) :
    host_read_all mm' h = .ok (cells.map (fun cl => c.eval1 cl.value)) :=
  for_each_h_roundtrip cst mm h c cells mm' cst' hcwf hmwf hl hrun

/-- Claim C9 witness: the round-trip on a concrete fresh allocation
and the identity callable. -/
theorem claim_c9_coherence_roundtrip_witness :
    host_read_all demoMMAfter 1 =
      .ok ((List.replicate 3 (⟨0, 0, ⟨true, false⟩⟩ : Cell)).map
        (fun cl => demoId.eval1 cl.value)) :=
  claim_c9_coherence_roundtrip CompilerState.initial demoMM 1 demoId
    (List.replicate 3 ⟨0, 0, ⟨true, false⟩⟩) demoMMAfter demoCstAfter
    (by decide) (by decide) rfl (by decide)

/-- Claim C10: the benchmark drivers `vector_multiply.cpp` and
`comprehensive_bench.cpp` exit with code 0 whatever their
verification loops observed — and `vector_multiply`'s loop inspects
only the first 10 elements, missing a mismatch at index 10 — so the
exit code carries no correctness information. -/
theorem claim_c10_exit_codes :
    (∀ data cpu, vector_multiply_exit data cpu = 0) ∧
    (∀ runs, comprehensive_bench_exit runs = 0) ∧
    vm_verify [0, 0, 0, 0, 0, 0, 0, 0, 0, 0, 5] [0, 0, 0, 0, 0, 0, 0, 0, 0, 0, 99] = true := by
  refine ⟨fun _ _ => rfl, fun _ => rfl, ?_⟩
  norm_num [vm_verify, List.range_succ, List.getD]

end Parallax
